import Mathlib

/-!
# Verification of the token-vault tokenizer

Shallow embedding of the Rust sources of `gnvenky/rustdatatokenizer`:

* `src/tokenizer/src/main.rs` — the CLI variant: `TokenVault`,
  `PersistentTokenVault` (`new`, `set_token`, `get_token`, `get_word`, `save`),
  `generate_token`, `tokenize`, and `main`'s retrieval loop.
* `src/tokenizer/src/api-endpoint/main.rs` — the HTTP variant; same vault code,
  but `tokenize` bounds the mint loop by a counter (`count == 2`).
* `src/tokenizer/src/sql-server/main_sqlserver.rs` — the SQL-backed variant
  with a single `tokens` map keyed by token.

Modelling conventions:
* Rust `HashMap<String, String>` becomes an association list
  `List (String × String)` with `findA` (lookup) and `insertA`
  (insert-or-overwrite, the semantics of `HashMap::insert`).
* The sled store is the `record : Option Blob` field of the vault state; a
  `bincode` blob either decodes to a `TokenVault` or is corrupt.  A failed
  `save` (sled insert or flush error) reports `SledError.flushFailed` and
  leaves the durable record unchanged.  sled open/get errors at load time
  propagate before deserialization is reached and are outside the model.
* `OsRng` and the collision behaviour of `generate_token` are modelled by an
  abstract stream: tokenization takes `gen : Nat → String`, the sequence of
  values returned by successive `generate_token()` calls, and an index into
  that stream.  `generate_token` itself is modelled concretely (SHA-256 and
  URL-safe base64 are implemented below) over a byte stream `r : Nat → Nat`.
* The unbounded `loop` in `main.rs`'s `tokenize` is given fuel; running out of
  fuel models the diverging execution (`TkOut.spin`).
* `TkOut.ok toks` models `Ok(toks.join(" "))`: the token list is kept
  unjoined so that per-word statements stay direct; `main`'s retrieval loop
  (`mainRetrieve`) consumes the joined form.
-/

/-! ## Association-list model of `HashMap<String, String>` -/

/-- Lookup in an association list, the model of `HashMap::get`. -/
def findA : List (String × String) → String → Option String
  | [], _ => none
  | (k', v') :: t, k => if k' = k then some v' else findA t k

/-- Insert-or-overwrite, the model of `HashMap::insert`. -/
def insertA : List (String × String) → String → String → List (String × String)
  | [], k, v => [(k, v)]
  | (k', v') :: t, k, v => if k' = k then (k, v) :: t else (k', v') :: insertA t k v

/-! ## The vault data model (`TokenVault`, `PersistentTokenVault`) -/

/-- Rust struct `TokenVault`: the two in-memory maps. -/
structure TokenVault where
  word_to_token : List (String × String)
  token_to_word : List (String × String)
deriving DecidableEq

def TokenVault.empty : TokenVault := ⟨[], []⟩

/-- A value stored under the sled key: either a well-formed `bincode`
serialization of a `TokenVault`, or bytes that fail to deserialize. -/
inductive Blob where
  | encoded (v : TokenVault)
  | corrupt
deriving DecidableEq

/-- `bincode::deserialize`: succeeds exactly on well-formed blobs. -/
def bincodeDeserialize : Blob → Option TokenVault
  | .encoded v => some v
  | .corrupt => none

/-- The only storage error surfaced by the modelled `save` path: a failed
`db.insert`/`db.flush` inside `PersistentTokenVault::save`. -/
inductive SledError where
  | flushFailed
deriving DecidableEq

/-- Rust struct `PersistentTokenVault`: the sled record plus the in-memory
`TokenVault`. -/
structure PersistentTokenVault where
  record : Option Blob
  vault : TokenVault
deriving DecidableEq

namespace PersistentTokenVault

/-- `PersistentTokenVault::new` after a successful `db.get("vault")`:
deserializes the stored blob if present, falling back to an empty vault via
`unwrap_or` on absence or deserialization failure. -/
def new (stored : Option Blob) : PersistentTokenVault :=
  { record := stored
  , vault :=
      match stored with
      | some data => (bincodeDeserialize data).getD TokenVault.empty
      | none => TokenVault.empty }

/-- `PersistentTokenVault::save`: serialize the in-memory vault and write it
durably.  `ok = true` models a run where `db.insert` and `db.flush` both
succeed; `ok = false` models a failed persist, which leaves the durable
record unchanged and reports the error. -/
def save (ok : Bool) (pv : PersistentTokenVault) :
    PersistentTokenVault × Option SledError :=
  if ok then ({ pv with record := some (.encoded pv.vault) }, none)
  else (pv, some .flushFailed)

/-- `PersistentTokenVault::set_token`: insert into both in-memory maps, then
`save`.  As in the source, the map mutation happens before the persist
attempt and is not rolled back when `save` fails; the caller receives the
mutated state together with the error. -/
def set_token (ok : Bool) (pv : PersistentTokenVault) (word tok : String) :
    PersistentTokenVault × Option SledError :=
  save ok
    { pv with
      vault :=
        { word_to_token := insertA pv.vault.word_to_token word tok
        , token_to_word := insertA pv.vault.token_to_word tok word } }

/-- `PersistentTokenVault::get_token`: lookup in `word_to_token`. -/
def get_token (pv : PersistentTokenVault) (word : String) : Option String :=
  findA pv.vault.word_to_token word

/-- `PersistentTokenVault::get_word`: lookup in `token_to_word`. -/
def get_word (pv : PersistentTokenVault) (tok : String) : Option String :=
  findA pv.vault.token_to_word tok

end PersistentTokenVault

/-- The empty starting state: a fresh store with nothing under the key. -/
def pvEmpty : PersistentTokenVault := PersistentTokenVault.new none

/-- In-memory effect of one `set_token` call (both map inserts), without the
persistence layer. -/
def setTokenMem (v : TokenVault) (word tok : String) : TokenVault :=
  { word_to_token := insertA v.word_to_token word tok
  , token_to_word := insertA v.token_to_word tok word }

/-- Invariant A of the spec, over map semantics: every binding of
`word_to_token` is mirrored in `token_to_word` and vice versa. -/
def BijectionHolds (v : TokenVault) : Prop :=
  (∀ w t, findA v.word_to_token w = some t → findA v.token_to_word t = some w) ∧
  (∀ t w, findA v.token_to_word t = some w → findA v.word_to_token w = some t)

/-- Invariant B of the spec: no two distinct words hold the same token, i.e.
`word_to_token` is injective as a map. -/
def WordMapInjective (v : TokenVault) : Prop :=
  ∀ w1 w2 t, findA v.word_to_token w1 = some t →
    findA v.word_to_token w2 = some t → w1 = w2

/-- Vault states reachable from empty by `set_token` calls that respect the
freshness guards `tokenize` establishes: the word is not yet in
`word_to_token` and the token not yet in `token_to_word`. -/
inductive ReachG : TokenVault → Prop where
  | empty : ReachG TokenVault.empty
  | step (v : TokenVault) (w t : String) : ReachG v →
      findA v.word_to_token w = none → findA v.token_to_word t = none →
      ReachG (setTokenMem v w t)

/-! ## The tokenization engine (`tokenize`) -/

/-- Char-level model of `str::split_whitespace`: maximal runs of
non-whitespace characters, empties skipped.  (`Char.isWhitespace` covers the
ASCII whitespace that the inputs of this program use.) -/
def splitWsAux : List Char → List Char → List String
  | [], acc => if acc = [] then [] else [String.mk acc.reverse]
  | c :: cs, acc =>
    if c.isWhitespace then
      (if acc = [] then splitWsAux cs [] else String.mk acc.reverse :: splitWsAux cs [])
    else splitWsAux cs (c :: acc)

def splitWhitespace (s : String) : List String := splitWsAux s.data []

/-- Outcome of a `tokenize` call.  `ok toks` models `Ok(toks.join(" "))`,
`storageErr` models `Err(e)` propagated from `set_token` by `?`, and `spin`
models the mint loop never finding a fresh token (the fuel ran out). -/
inductive TkOut where
  | ok (toks : List String)
  | storageErr
  | spin
deriving DecidableEq

/-- The mint loop of `main.rs`'s `tokenize`: call `generate_token()` until the
result is absent from `token_to_word`.  `gen` is the stream of generated
tokens, `idx` the position of the next call; the fuel bounds how far we
unroll the (source-level unbounded) loop. -/
def mintFresh (gen : Nat → String) (ttw : List (String × String)) :
    Nat → Nat → Option (String × Nat)
  | 0, _ => none
  | fuel + 1, idx =>
    if findA ttw (gen idx) = none then some (gen idx, idx + 1)
    else mintFresh gen ttw fuel (idx + 1)

/-- `tokenized.push(token)` under early-return: prepend the resolved token to
a successful remainder, pass errors (and their vault state) through. -/
def consTok (t : String) : PersistentTokenVault × Nat × TkOut →
    PersistentTokenVault × Nat × TkOut
  | (pv1, idx1, .ok toks) => (pv1, idx1, .ok (t :: toks))
  | r => r

/-- The word loop of `main.rs`'s `tokenize`: resolve each word via
`get_token`, minting and `set_token`-ing on a miss; a `set_token` error
aborts via `?` (leaving the vault as mutated so far). -/
def tokenizeWords (c : Bool) (gen : Nat → String) (fuel : Nat) :
    List String → PersistentTokenVault → Nat → PersistentTokenVault × Nat × TkOut
  | [], pv, idx => (pv, idx, .ok [])
  | word :: ws, pv, idx =>
    match findA pv.vault.word_to_token word with
    | some t => consTok t (tokenizeWords c gen fuel ws pv idx)
    | none =>
      match mintFresh gen pv.vault.token_to_word fuel idx with
      | none => (pv, idx, .spin)
      | some (t, idx') =>
        match PersistentTokenVault.set_token c pv word t with
        | (pv1, none) => consTok t (tokenizeWords c gen fuel ws pv1 idx')
        | (pv1, some _) => (pv1, idx', .storageErr)

/-- `tokenize` of `main.rs`: split the input on whitespace and run the word
loop. -/
def tokenize (c : Bool) (gen : Nat → String) (fuel : Nat)
    (pv : PersistentTokenVault) (idx : Nat) (input : String) :
    PersistentTokenVault × Nat × TkOut :=
  tokenizeWords c gen fuel (splitWhitespace input) pv idx

/-- The retrieval loop of `main.rs`'s `main`: split the tokenized text on
whitespace and `filter_map` each token through `vault.get_token` (sic — the
forward map, not `get_word`), then join with single spaces. -/
def mainRetrieve (pv : PersistentTokenVault) (tokenized : String) : String :=
  String.intercalate " "
    ((splitWhitespace tokenized).filterMap fun tok => PersistentTokenVault.get_token pv tok)

/-! ## The api-endpoint variant of `tokenize` -/

/-- The mint loop of `api-endpoint/main.rs`: break when the token is fresh or
when `count == 2` — the second generated token is accepted whether or not it
collides. -/
def mintLoopAE (gen : Nat → String) (ttw : List (String × String)) (idx : Nat) :
    String × Nat :=
  if findA ttw (gen idx) = none then (gen idx, idx + 1)
  else (gen (idx + 1), idx + 2)

/-- The word loop of `api-endpoint/main.rs`'s `tokenize`: same as the CLI
variant but with the counter-bounded mint loop, which always yields a token
(possibly a colliding one). -/
def tokenizeWordsAE (c : Bool) (gen : Nat → String) :
    List String → PersistentTokenVault → Nat → PersistentTokenVault × Nat × TkOut
  | [], pv, idx => (pv, idx, .ok [])
  | word :: ws, pv, idx =>
    match findA pv.vault.word_to_token word with
    | some t => consTok t (tokenizeWordsAE c gen ws pv idx)
    | none =>
      match mintLoopAE gen pv.vault.token_to_word idx with
      | (t, idx') =>
        match PersistentTokenVault.set_token c pv word t with
        | (pv1, none) => consTok t (tokenizeWordsAE c gen ws pv1 idx')
        | (pv1, some _) => (pv1, idx', .storageErr)

/-- `tokenize` of `api-endpoint/main.rs`. -/
def tokenizeAE (c : Bool) (gen : Nat → String)
    (pv : PersistentTokenVault) (idx : Nat) (input : String) :
    PersistentTokenVault × Nat × TkOut :=
  tokenizeWordsAE c gen (splitWhitespace input) pv idx

/-! ## The sql-server variant -/

/-- The sql-server vault: a single `tokens` map.  Per the `CREATE TABLE`
statement the key column is `token` and the value column the word; the
in-memory cache and the table hold the same pairs on the modelled success
path (`set_token` inserts into the cache only after the upsert succeeds, and
`get_token`'s DB fallback reads the same data the cache would). -/
structure SqlTokenVault where
  tokens : List (String × String)
deriving DecidableEq

namespace SqlTokenVault

/-- sql-server `get_token`: look `key` up among the token-keyed pairs. -/
def get_token (v : SqlTokenVault) (key : String) : Option String :=
  findA v.tokens key

/-- sql-server `set_token`: upsert `(key, value)`; called by its `tokenize`
as `set_token(&new_token, &word)`, i.e. keyed by token. -/
def set_token (v : SqlTokenVault) (key value : String) : SqlTokenVault :=
  ⟨insertA v.tokens key value⟩

end SqlTokenVault

/-- The word loop of `main_sqlserver.rs`'s `tokenize` (success path): resolve
via `get_token(&word)`, and on a miss mint one token and upsert it via
`set_token(&new_token, &word)`. -/
def sqlTokenizeWords (gen : Nat → String) :
    List String → SqlTokenVault → Nat → SqlTokenVault × Nat × List String
  | [], v, idx => (v, idx, [])
  | word :: ws, v, idx =>
    match SqlTokenVault.get_token v word with
    | some t =>
      let r := sqlTokenizeWords gen ws v idx
      (r.1, r.2.1, t :: r.2.2)
    | none =>
      let t := gen idx
      let r := sqlTokenizeWords gen ws (SqlTokenVault.set_token v t word) (idx + 1)
      (r.1, r.2.1, t :: r.2.2)

/-! ## `generate_token`: SHA-256 and URL-safe base64

`main.rs` (and the api-endpoint variant) generate 16 bytes from `OsRng`, hash
them with `Sha256`, encode the digest with `URL_SAFE_NO_PAD` base64 and keep
the first 16 characters.  The two library calls are embedded concretely:
SHA-256 (FIPS 180-4) over byte lists, and the URL-safe no-padding base64
alphabet/packing.  32-bit words are `Nat` reduced mod `2 ^ 32`. -/

def w32 (n : Nat) : Nat := n % 4294967296

/-- Rotate a 32-bit word right by `n`. -/
def rotr (n x : Nat) : Nat := w32 (x / 2 ^ n + x % 2 ^ n * 2 ^ (32 - n))

/-- Shift a 32-bit word right by `n`. -/
def shr (n x : Nat) : Nat := x / 2 ^ n

def bsig0 (x : Nat) : Nat := rotr 2 x ^^^ rotr 13 x ^^^ rotr 22 x
def bsig1 (x : Nat) : Nat := rotr 6 x ^^^ rotr 11 x ^^^ rotr 25 x
def ssig0 (x : Nat) : Nat := rotr 7 x ^^^ rotr 18 x ^^^ shr 3 x
def ssig1 (x : Nat) : Nat := rotr 17 x ^^^ rotr 19 x ^^^ shr 10 x

/-- SHA-256 `Ch`; `¬x` on 32 bits is `x ^^^ 0xffffffff`. -/
def chF (x y z : Nat) : Nat := (x &&& y) ^^^ ((x ^^^ 4294967295) &&& z)

/-- SHA-256 `Maj`. -/
def majF (x y z : Nat) : Nat := (x &&& y) ^^^ (x &&& z) ^^^ (y &&& z)

/-- The 64 SHA-256 round constants (FIPS 180-4 §4.2.2, written in decimal). -/
def sha256K : List Nat :=
  [1116352408, 1899447441, 3049323471, 3921009573, 961987163, 1508970993,
   2453635748, 2870763221, 3624381080, 310598401, 607225278, 1426881987,
   1925078388, 2162078206, 2614888103, 3248222580, 3835390401, 4022224774,
   264347078, 604807628, 770255983, 1249150122, 1555081692, 1996064986,
   2554220882, 2821834349, 2952996808, 3210313671, 3336571891, 3584528711,
   113926993, 338241895, 666307205, 773529912, 1294757372, 1396182291,
   1695183700, 1986661051, 2177026350, 2456956037, 2730485921, 2820302411,
   3259730800, 3345764771, 3516065817, 3600352804, 4094571909, 275423344,
   430227734, 506948616, 659060556, 883997877, 958139571, 1322822218,
   1537002063, 1747873779, 1955562222, 2024104815, 2227730452, 2361852424,
   2428436474, 2756734187, 3204031479, 3329325298]

/-- The eight 32-bit words of SHA-256 working state. -/
structure Hash8 where
  a : Nat
  b : Nat
  c : Nat
  d : Nat
  e : Nat
  f : Nat
  g : Nat
  h : Nat
deriving DecidableEq

/-- SHA-256 initial hash value (FIPS 180-4 §5.3.3, written in decimal). -/
def sha256Init : Hash8 :=
  ⟨1779033703, 3144134277, 1013904242, 2773480762,
   1359893119, 2600822924, 528734635, 1541459225⟩

/-- One SHA-256 round; `kw` is `K[i] + W[i]` mod `2 ^ 32`. -/
def sha256Round (st : Hash8) (kw : Nat) : Hash8 :=
  let t1 := w32 (st.h + bsig1 st.e + chF st.e st.f st.g + kw)
  let t2 := w32 (bsig0 st.a + majF st.a st.b st.c)
  ⟨w32 (t1 + t2), st.a, st.b, st.c, w32 (st.d + t1), st.e, st.f, st.g⟩

/-- Big-endian packing of bytes into 32-bit words. -/
def bytesToWords : List Nat → List Nat
  | b0 :: b1 :: b2 :: b3 :: rest =>
      (b0 * 16777216 + b1 * 65536 + b2 * 256 + b3) :: bytesToWords rest
  | _ => []

/-- Extend the message schedule; `acc` holds the words produced so far in
reverse, so `acc.getD 1` is `W[i-2]`, `acc.getD 6` is `W[i-7]`, `acc.getD 14`
is `W[i-15]` and `acc.getD 15` is `W[i-16]`. -/
def extendSchedule : Nat → List Nat → List Nat
  | 0, acc => acc
  | n + 1, acc =>
      extendSchedule n
        (w32 (ssig1 (acc.getD 1 0) + acc.getD 6 0 + ssig0 (acc.getD 14 0) + acc.getD 15 0) :: acc)

/-- The 64-word message schedule of one 64-byte block. -/
def msgSchedule (block : List Nat) : List Nat :=
  (extendSchedule 48 (bytesToWords block).reverse).reverse

/-- SHA-256 compression of one 64-byte block. -/
def sha256Compress (st : Hash8) (block : List Nat) : Hash8 :=
  let kws := (List.zip sha256K (msgSchedule block)).map fun p => w32 (p.1 + p.2)
  let r := kws.foldl sha256Round st
  ⟨w32 (st.a + r.a), w32 (st.b + r.b), w32 (st.c + r.c), w32 (st.d + r.d),
   w32 (st.e + r.e), w32 (st.f + r.f), w32 (st.g + r.g), w32 (st.h + r.h)⟩

/-- Big-endian 64-bit length field of the padding. -/
def lenBytes8 (n : Nat) : List Nat :=
  [n / 2 ^ 56 % 256, n / 2 ^ 48 % 256, n / 2 ^ 40 % 256, n / 2 ^ 32 % 256,
   n / 2 ^ 24 % 256, n / 2 ^ 16 % 256, n / 2 ^ 8 % 256, n % 256]

/-- SHA-256 padding: `0x80`, zeros to 56 mod 64, then the bit length. -/
def sha256Pad (msg : List Nat) : List Nat :=
  msg ++ 128 :: List.replicate ((119 - msg.length % 64) % 64) 0 ++ lenBytes8 (8 * msg.length)

/-- Split a byte list into 64-byte blocks. -/
def chunks64 : List Nat → List (List Nat)
  | [] => []
  | b :: bs => (b :: bs).take 64 :: chunks64 ((b :: bs).drop 64)
termination_by l => l.length
decreasing_by
  simp [List.length_drop]
  omega

/-- Big-endian bytes of one 32-bit word. -/
def wordBytes (w : Nat) : List Nat :=
  [w / 2 ^ 24 % 256, w / 2 ^ 16 % 256, w / 2 ^ 8 % 256, w % 256]

/-- SHA-256 of a byte list; the 32-byte digest. -/
def sha256 (msg : List Nat) : List Nat :=
  let fin := (chunks64 (sha256Pad msg)).foldl sha256Compress sha256Init
  wordBytes fin.a ++ wordBytes fin.b ++ wordBytes fin.c ++ wordBytes fin.d ++
  wordBytes fin.e ++ wordBytes fin.f ++ wordBytes fin.g ++ wordBytes fin.h

/-- The URL-safe base64 alphabet (RFC 4648 §5). -/
def b64Alphabet : List Char :=
  ['A', 'B', 'C', 'D', 'E', 'F', 'G', 'H', 'I', 'J', 'K', 'L', 'M',
   'N', 'O', 'P', 'Q', 'R', 'S', 'T', 'U', 'V', 'W', 'X', 'Y', 'Z',
   'a', 'b', 'c', 'd', 'e', 'f', 'g', 'h', 'i', 'j', 'k', 'l', 'm',
   'n', 'o', 'p', 'q', 'r', 's', 't', 'u', 'v', 'w', 'x', 'y', 'z',
   '0', '1', '2', '3', '4', '5', '6', '7', '8', '9', '-', '_']

/-- The alphabet character of a 6-bit group (the `% 64` is a no-op on the
6-bit values the packing produces from bytes). -/
def b64Char (i : Nat) : Char := b64Alphabet.getD (i % 64) 'A'

/-- Pack bytes into 6-bit groups, three bytes to four groups, with the
no-padding tail handling of `URL_SAFE_NO_PAD`. -/
def b64EncodeNums : List Nat → List Nat
  | a :: b :: c :: rest =>
      a / 4 :: (a % 4 * 16 + b / 16) :: (b % 16 * 4 + c / 64) :: c % 64 ::
        b64EncodeNums rest
  | [a, b] => [a / 4, a % 4 * 16 + b / 16, b % 16 * 4]
  | [a] => [a / 4, a % 4 * 16]
  | [] => []

/-- `URL_SAFE_NO_PAD.encode`. -/
def urlSafeNoPadEncode (bytes : List Nat) : String :=
  String.mk ((b64EncodeNums bytes).map b64Char)

/-- The 16 random bytes `(0..16).map(|_| rng.gen::<u8>())`, drawn from an
abstract byte stream `r` (each draw reduced to a byte, as `u8` is). -/
def randomBytes16 (r : Nat → Nat) : List Nat :=
  (List.range 16).map fun i => r i % 256

/-- `generate_token` of `main.rs` and `api-endpoint/main.rs`: hash 16 random
bytes with SHA-256, base64url-encode without padding, keep the first
`TOKEN_LEN = 16` characters (the encoding is ASCII, so the byte slice
`[0..16]` is the first 16 characters). -/
def generate_token (r : Nat → Nat) : String :=
  String.mk ((urlSafeNoPadEncode (sha256 (randomBytes16 r))).data.take 16)

/-! ## Concrete runs used by the counterexample and failing-input theorems -/

/-- A generator stream that always returns the same token. -/
def genT : Nat → String := fun _ => "T"

/-- C2 scenario: a vault that already holds token `T` for word `x`. -/
def pvX : PersistentTokenVault := (PersistentTokenVault.set_token true pvEmpty "x" "T").1

/-- C2 scenario: api-endpoint tokenize of the new word `w` while the
generator yields the live token `T` on both attempts. -/
def runC2 : PersistentTokenVault × Nat × TkOut := tokenizeWordsAE true genT ["w"] pvX 0

/-- C4 scenario: api-endpoint tokenize of `x` from empty (assigns `T`). -/
def pvAE1 : PersistentTokenVault := (tokenizeAE true genT pvEmpty 0 "x").1

/-- C4 scenario: then api-endpoint tokenize of `w`, double collision on `T`. -/
def runC4 : PersistentTokenVault × Nat × TkOut := tokenizeAE true genT pvAE1 1 "w"

/-- C3 scenario: `set_token` twice for the same word with different tokens
(the documented "update an existing one" use of `set_token`). -/
def pvUpd : PersistentTokenVault :=
  (PersistentTokenVault.set_token true
    ((PersistentTokenVault.set_token true pvEmpty "a" "T1").1) "a" "T2").1

/-- A generator stream for the C5 scenario (any fixed fresh token). -/
def genTokA : Nat → String := fun _ => "tokA"

/-- C5 scenario: CLI tokenize of `"hello"` from empty. -/
def runC5 : PersistentTokenVault × Nat × TkOut := tokenize true genTokA 1 pvEmpty 0 "hello"

/-- A generator stream with distinct values at 0 and 1. -/
def genT01 : Nat → String := fun i => if i == 0 then "T0" else "T1"

/-- C6 scenario: sql-server tokenize of `w` from empty. -/
def runS1 : SqlTokenVault × Nat × List String := sqlTokenizeWords genT01 ["w"] ⟨[]⟩ 0

/-- C6 scenario: sql-server tokenize of `w` again, on the resulting vault. -/
def runS2 : SqlTokenVault × Nat × List String := sqlTokenizeWords genT01 ["w"] runS1.1 runS1.2.1

/-! ## Supporting lemmas -/

theorem findA_insertA_self (m : List (String × String)) (k v : String) :
    findA (insertA m k v) k = some v := by
  induction m with
  | nil => simp [insertA, findA]
  | cons p t ih =>
    by_cases h : p.1 = k
    · simp [insertA, h, findA]
    · simp [insertA, h, findA, ih]

theorem findA_insertA_ne (m : List (String × String)) (k v k' : String) (h : k ≠ k') :
    findA (insertA m k v) k' = findA m k' := by
  induction m with
  | nil => simp [insertA, findA, h]
  | cons p t ih =>
    by_cases hp : p.1 = k
    · simp [insertA, hp, findA, h]
    · by_cases hp' : p.1 = k'
      · simp [insertA, hp, findA, hp', Ne.symm h]
      · simp [insertA, hp, findA, hp', ih]

theorem setTokenMem_bijection (v : TokenVault) (w t : String)
    (hb : BijectionHolds v)
    (hw : findA v.word_to_token w = none) (ht : findA v.token_to_word t = none) :
    BijectionHolds (setTokenMem v w t) := by
  constructor
  · intro w0 t0 h0
    by_cases hww : w = w0
    · subst hww
      rw [setTokenMem] at h0
      simp only at h0
      rw [findA_insertA_self] at h0
      cases h0
      simp [setTokenMem, findA_insertA_self]
    · rw [setTokenMem] at h0
      simp only at h0
      rw [findA_insertA_ne _ _ _ _ hww] at h0
      have hmir := hb.1 w0 t0 h0
      have htt : t ≠ t0 := by
        intro he
        subst he
        rw [hmir] at ht
        cases ht
      simp only [setTokenMem]
      rw [findA_insertA_ne _ _ _ _ htt]
      exact hmir
  · intro t0 w0 h0
    by_cases htt : t = t0
    · subst htt
      rw [setTokenMem] at h0
      simp only at h0
      rw [findA_insertA_self] at h0
      cases h0
      simp [setTokenMem, findA_insertA_self]
    · rw [setTokenMem] at h0
      simp only at h0
      rw [findA_insertA_ne _ _ _ _ htt] at h0
      have hmir := hb.2 t0 w0 h0
      have hww : w ≠ w0 := by
        intro he
        subst he
        rw [hmir] at hw
        cases hw
      simp only [setTokenMem]
      rw [findA_insertA_ne _ _ _ _ hww]
      exact hmir

theorem reachG_bijection (v : TokenVault) (h : ReachG v) : BijectionHolds v := by
  induction h with
  | empty =>
    constructor
    · intro w t h
      simp [TokenVault.empty, findA] at h
    · intro t w h
      simp [TokenVault.empty, findA] at h
  | step v w t _ hw ht ih => exact setTokenMem_bijection v w t ih hw ht

theorem bijection_injective (v : TokenVault) (h : BijectionHolds v) :
    WordMapInjective v := by
  intro w1 w2 t h1 h2
  have e1 := h.1 w1 t h1
  have e2 := h.1 w2 t h2
  rw [e1] at e2
  exact Option.some.inj e2

/-- Uniqueness (Invariant B) on all guarded-reachable states, in particular
on every state the CLI `tokenize` can produce. -/
theorem reachG_injective (v : TokenVault) (h : ReachG v) : WordMapInjective v :=
  bijection_injective v (reachG_bijection v h)

@[simp]
theorem consTok_fst (t : String) (r : PersistentTokenVault × Nat × TkOut) :
    (consTok t r).1 = r.1 := by
  rcases r with ⟨pv1, idx1, out⟩
  cases out <;> rfl

theorem save_fst_vault (ok : Bool) (pv : PersistentTokenVault) :
    (PersistentTokenVault.save ok pv).1.vault = pv.vault := by
  cases ok <;> rfl

theorem set_token_fst_vault (ok : Bool) (pv : PersistentTokenVault) (w t : String) :
    (PersistentTokenVault.set_token ok pv w t).1.vault = setTokenMem pv.vault w t := by
  cases ok <;> rfl

/-- A token returned by the CLI mint loop is fresh: `get_word` misses. -/
theorem mintFresh_fresh (gen : Nat → String) (ttw : List (String × String))
    (fuel idx : Nat) (t : String) (idx' : Nat)
    (h : mintFresh gen ttw fuel idx = some (t, idx')) : findA ttw t = none := by
  induction fuel generalizing idx with
  | zero => cases h
  | succ n ih =>
    rw [mintFresh] at h
    by_cases hf : findA ttw (gen idx) = none
    · rw [if_pos hf] at h
      obtain ⟨h1, _⟩ := Prod.mk.inj (Option.some.inj h)
      rw [← h1]
      exact hf
    · rw [if_neg hf] at h
      exact ih _ h

/-- Every state the CLI word loop produces from a guarded-reachable state is
guarded-reachable: each of its `set_token` calls is for a word missing from
`word_to_token` and a minted token missing from `token_to_word`. -/
theorem tokenizeWords_reachG (c : Bool) (gen : Nat → String) (fuel : Nat)
    (ws : List String) (pv : PersistentTokenVault) (idx : Nat)
    (h : ReachG pv.vault) :
    ReachG (tokenizeWords c gen fuel ws pv idx).1.vault := by
  induction ws generalizing pv idx with
  | nil => simpa [tokenizeWords]
  | cons x ws ih =>
    cases hx : findA pv.vault.word_to_token x with
    | some tx =>
      simp only [tokenizeWords, hx, consTok_fst]
      exact ih pv idx h
    | none =>
      cases hm : mintFresh gen pv.vault.token_to_word fuel idx with
      | none =>
        simp only [tokenizeWords, hx, hm]
        exact h
      | some p =>
        obtain ⟨tk, idx'⟩ := p
        have hfresh := mintFresh_fresh gen _ fuel idx tk idx' hm
        have hstep : ReachG (setTokenMem pv.vault x tk) :=
          ReachG.step pv.vault x tk h hx hfresh
        rcases hst : PersistentTokenVault.set_token c pv x tk with ⟨pv1, err⟩
        have hv1 : pv1.vault = setTokenMem pv.vault x tk := by
          have hq := set_token_fst_vault c pv x tk
          rw [hst] at hq
          exact hq
        cases err with
        | none =>
          simp only [tokenizeWords, hx, hm, hst, consTok_fst]
          exact ih pv1 idx' (hv1 ▸ hstep)
        | some e =>
          simp only [tokenizeWords, hx, hm, hst]
          rw [hv1]
          exact hstep

/-- String-level corollary: states of the CLI `tokenize` stay guarded. -/
theorem tokenize_reachG (c : Bool) (gen : Nat → String) (fuel : Nat)
    (pv : PersistentTokenVault) (idx : Nat) (input : String)
    (h : ReachG pv.vault) :
    ReachG (tokenize c gen fuel pv idx input).1.vault :=
  tokenizeWords_reachG c gen fuel (splitWhitespace input) pv idx h

/-- The CLI word loop never rebinds an existing word: an established
`word_to_token` binding survives every later call (idempotence of the
assignment for already-seen words). -/
theorem tokenizeWords_preserves_binding (c : Bool) (gen : Nat → String)
    (fuel : Nat) (ws : List String) (pv : PersistentTokenVault) (idx : Nat)
    (w t : String) (h : findA pv.vault.word_to_token w = some t) :
    findA (tokenizeWords c gen fuel ws pv idx).1.vault.word_to_token w = some t := by
  induction ws generalizing pv idx with
  | nil => simpa [tokenizeWords]
  | cons x ws ih =>
    cases hx : findA pv.vault.word_to_token x with
    | some tx =>
      simp only [tokenizeWords, hx, consTok_fst]
      exact ih pv idx h
    | none =>
      have hxw : x ≠ w := by
        intro he
        rw [he, h] at hx
        cases hx
      cases hm : mintFresh gen pv.vault.token_to_word fuel idx with
      | none =>
        simp only [tokenizeWords, hx, hm]
        exact h
      | some p =>
        obtain ⟨tk, idx'⟩ := p
        rcases hst : PersistentTokenVault.set_token c pv x tk with ⟨pv1, err⟩
        have hv1 : pv1.vault = setTokenMem pv.vault x tk := by
          have hq := set_token_fst_vault c pv x tk
          rw [hst] at hq
          exact hq
        have hbind : findA pv1.vault.word_to_token w = some t := by
          rw [hv1]
          simp only [setTokenMem]
          rw [findA_insertA_ne _ _ _ _ hxw]
          exact h
        cases err with
        | none =>
          simp only [tokenizeWords, hx, hm, hst, consTok_fst]
          exact ih pv1 idx' hbind
        | some e =>
          simp only [tokenizeWords, hx, hm, hst]
          exact hbind

/-- Tokenizing a single already-known word is a pure read: same state, same
index, and the call returns the stored token. -/
theorem tokenizeWords_known_single (c : Bool) (gen : Nat → String) (fuel : Nat)
    (pv : PersistentTokenVault) (idx : Nat) (w t : String)
    (h : findA pv.vault.word_to_token w = some t) :
    tokenizeWords c gen fuel [w] pv idx = (pv, idx, TkOut.ok [t]) := by
  simp [tokenizeWords, h, consTok]

/-- If every word of the list is already bound, the word loop is a pure read:
no state change, no generator call, and a successful result. -/
theorem tokenizeWords_all_known (c : Bool) (gen : Nat → String) (fuel : Nat)
    (ws : List String) (pv : PersistentTokenVault) (idx : Nat)
    (h : ∀ w ∈ ws, (findA pv.vault.word_to_token w).isSome) :
    ∃ toks, tokenizeWords c gen fuel ws pv idx = (pv, idx, TkOut.ok toks) := by
  induction ws with
  | nil => exact ⟨[], rfl⟩
  | cons w ws ih =>
    have hw := h w (List.mem_cons_self _ _)
    obtain ⟨t, ht⟩ := Option.isSome_iff_exists.mp hw
    obtain ⟨toks, htoks⟩ := ih fun w' hw' => h w' (List.mem_cons_of_mem _ hw')
    exact ⟨t :: toks, by simp [tokenizeWords, ht, htoks, consTok]⟩

theorem wordBytes_length (w : Nat) : (wordBytes w).length = 4 := rfl

/-- A SHA-256 digest is always 32 bytes. -/
theorem sha256_length (msg : List Nat) : (sha256 msg).length = 32 := by
  simp [sha256, wordBytes]

/-- Unpadded base64 length: four characters per three bytes, rounded. -/
theorem b64EncodeNums_length (l : List Nat) :
    (b64EncodeNums l).length = (4 * l.length + 2) / 3 := by
  induction l using b64EncodeNums.induct with
  | case1 a b c rest ih =>
    simp [b64EncodeNums, ih]
    omega
  | case2 a b => simp [b64EncodeNums]
  | case3 a => simp [b64EncodeNums]
  | case4 => simp [b64EncodeNums]

/-- Every emitted character comes from the URL-safe alphabet. -/
theorem b64Char_mem (i : Nat) : b64Char i ∈ b64Alphabet := by
  have h : i % 64 < b64Alphabet.length := by
    have h64 : i % 64 < 64 := Nat.mod_lt _ (by norm_num)
    simpa [b64Alphabet] using h64
  rw [b64Char, List.getD_eq_getElem _ _ h]
  exact List.getElem_mem h

theorem generate_token_length (r : Nat → Nat) : (generate_token r).length = 16 := by
  have he : (urlSafeNoPadEncode (sha256 (randomBytes16 r))).data.length = 43 := by
    simp [urlSafeNoPadEncode, b64EncodeNums_length, sha256_length]
  simp [generate_token, String.length, he]

theorem generate_token_chars (r : Nat → Nat) :
    ((generate_token r).data.all fun c => b64Alphabet.contains c) = true := by
  rw [List.all_eq_true]
  intro c hc
  have h1 : c ∈ (urlSafeNoPadEncode (sha256 (randomBytes16 r))).data :=
    List.take_subset _ _ (by simpa [generate_token] using hc)
  have h2 : c ∈ (b64EncodeNums (sha256 (randomBytes16 r))).map b64Char := by
    simpa [urlSafeNoPadEncode] using h1
  obtain ⟨i, _, rfl⟩ := List.mem_map.mp h2
  simpa [List.contains, List.elem_iff] using b64Char_mem i

/-! ## Claim theorems -/

/-- Claim C1 (failing-input theorem): with a failing durable flush,
`set_token` on the empty vault reports the storage error yet leaves the
in-memory maps mutated — the word is bound in `word_to_token` after the
erroring call, contradicting the "maps unchanged on `StorageError`"
requirement (the source mutates before persisting and does not roll back). -/
theorem set_token_flush_failure_mutates_memory :
    (PersistentTokenVault.set_token false pvEmpty "a" "T").2 = some SledError.flushFailed ∧
    PersistentTokenVault.get_token (PersistentTokenVault.set_token false pvEmpty "a" "T").1 "a" =
      some "T" ∧
    (PersistentTokenVault.set_token false pvEmpty "a" "T").1.vault ≠ pvEmpty.vault := by
  decide

/-- Claim C2 (failing-input theorem): with token `T` live for word `x`, the
api-endpoint mint loop draws `T` on both bounded attempts and, instead of
failing with a distinct exhaustion error, silently assigns the colliding
token to the new word `w` and returns success — `token_to_word[T]` is even
rebound from `x` to `w`. -/
theorem mint_retry_exhaustion_accepts_collision :
    PersistentTokenVault.get_word pvX "T" = some "x" ∧
    runC2.2.2 = TkOut.ok ["T"] ∧
    PersistentTokenVault.get_token runC2.1 "w" = some "T" ∧
    PersistentTokenVault.get_word runC2.1 "T" = some "w" := by
  decide

/-- Claim C3 (counterexample): a sequence of two plain `set_token` calls from
the empty vault — rebinding word `a` from `T1` to `T2`, the documented
"update an existing one" use — leaves the stale pair `(T1, a)` in
`token_to_word` while `word_to_token[a] = T2`, so the bijection claimed for
*any* `set_token` sequence fails. -/
theorem set_token_sequence_breaks_bijection : ¬ BijectionHolds pvUpd.vault := by
  intro h
  have h2 := h.2 "T1" "a" (by decide)
  exact absurd h2 (by decide)

/-- Claim C3 (amended): in every vault state reachable from empty by
`set_token` calls that insert a word not yet in `word_to_token` with a token
not yet in `token_to_word` — the discipline `tokenize`'s lookup and
collision check enforce — the two maps are mutually consistent views of one
relation. -/
theorem vault_bijection_guarded (v : TokenVault) (h : ReachG v) : BijectionHolds v :=
  reachG_bijection v h

/-- Witness for the amended C3 theorem at a concrete one-step state. -/
theorem vault_bijection_guarded_witness :
    BijectionHolds (setTokenMem TokenVault.empty "a" "T") :=
  vault_bijection_guarded _ (ReachG.step TokenVault.empty "a" "T" ReachG.empty
    (by decide) (by decide))

/-- Claim C4 (failing-input theorem): two api-endpoint `tokenize` calls from
the empty vault, the second hitting the mint-retry bound on a live token,
leave the two distinct words `x` and `w` bound to the same token `T`:
`word_to_token` is not injective on this tokenize-reachable state. -/
theorem tokenize_can_break_uniqueness :
    runC4.2.2 = TkOut.ok ["T"] ∧
    findA runC4.1.vault.word_to_token "x" = some "T" ∧
    findA runC4.1.vault.word_to_token "w" = some "T" ∧
    ¬ WordMapInjective runC4.1.vault := by
  refine ⟨by decide, by decide, by decide, ?_⟩
  intro hinj
  exact absurd (hinj "x" "w" "T" (by decide) (by decide)) (by decide)

/-- Claim C5 (failing-input theorem): tokenizing `"hello"` yields the token
`tokA`, but `main`'s retrieval loop resolves tokens through `get_token` (the
forward map) instead of `get_word`, so detokenizing the tokenized output
returns the empty string, not `"hello"` — even though the reverse lookup
`get_word` would have produced the word. -/
theorem main_retrieval_drops_tokenized_words :
    runC5.2.2 = TkOut.ok ["tokA"] ∧
    mainRetrieve runC5.1 "tokA" = "" ∧
    PersistentTokenVault.get_word runC5.1 "tokA" = some "hello" ∧
    ("" : String) ≠ "hello" := by
  decide

/-- Claim C6 (failing-input theorem): in the sql-server variant, tokenizing
the same word `w` twice from the empty vault mints two different tokens and
inserts a second pair, because `tokenize` calls `get_token(&word)` against a
map keyed by token — the second call never finds the first assignment. -/
theorem sql_tokenize_not_idempotent :
    runS1.2.2 = ["T0"] ∧
    runS2.2.2 = ["T1"] ∧
    ("T0" : String) ≠ "T1" ∧
    runS2.1 ≠ runS1.1 := by
  decide

/-- Claim C7: for every random byte stream, `generate_token` returns exactly
16 characters, all from the URL-safe base64 alphabet, and the result is
precisely the first 16 characters of the padding-free URL-safe base64
encoding of the SHA-256 digest of the 16 drawn random bytes. -/
theorem generate_token_spec (r : Nat → Nat) :
    (generate_token r).length = 16 ∧
    ((generate_token r).data.all fun c => b64Alphabet.contains c) = true ∧
    generate_token r =
      String.mk ((urlSafeNoPadEncode (sha256 (randomBytes16 r))).data.take 16) :=
  ⟨generate_token_length r, generate_token_chars r, rfl⟩

/-- Claim C8: `PersistentTokenVault::new` yields the empty vault whenever the
persisted record is absent or fails to deserialize; the deserialization
failure is absorbed by `unwrap_or` and never surfaces to the caller. -/
theorem new_missing_or_corrupt_is_empty (stored : Option Blob)
    (h : stored = none ∨ ∃ b, stored = some b ∧ bincodeDeserialize b = none) :
    (PersistentTokenVault.new stored).vault = TokenVault.empty := by
  rcases h with rfl | ⟨b, rfl, hb⟩
  · rfl
  · simp [PersistentTokenVault.new, hb]

/-- Witness for C8 at the concrete corrupt blob. -/
theorem new_missing_or_corrupt_is_empty_witness :
    (PersistentTokenVault.new (some Blob.corrupt)).vault = TokenVault.empty :=
  new_missing_or_corrupt_is_empty (some Blob.corrupt)
    (Or.inr ⟨Blob.corrupt, rfl, rfl⟩)

/-- Claim C9: for every random byte stream, the padding-free URL-safe base64
encoding of the 32-byte SHA-256 digest has exactly 43 characters, so the
`[0..16]` slice taken by `generate_token` is always within bounds. -/
theorem token_slice_in_bounds (r : Nat → Nat) :
    (sha256 (randomBytes16 r)).length = 32 ∧
    (urlSafeNoPadEncode (sha256 (randomBytes16 r))).length = 43 ∧
    16 ≤ (urlSafeNoPadEncode (sha256 (randomBytes16 r))).length := by
  have he : (urlSafeNoPadEncode (sha256 (randomBytes16 r))).length = 43 := by
    simp [urlSafeNoPadEncode, String.length, b64EncodeNums_length, sha256_length]
  exact ⟨sha256_length _, he, by omega⟩

/-- Claim C10: when every whitespace-delimited word of the input is already
bound in `word_to_token` (in particular for empty or whitespace-only input),
`tokenize` is a pure read: the returned state — in-memory maps and persisted
record alike — is the input state, the generator stream is not consumed, and
the result is a success, never a storage error. -/
theorem tokenize_all_known_readonly (c : Bool) (gen : Nat → String) (fuel : Nat)
    (pv : PersistentTokenVault) (idx : Nat) (input : String)
    (h : ∀ w ∈ splitWhitespace input, (PersistentTokenVault.get_token pv w).isSome) :
    ∃ toks, tokenize c gen fuel pv idx input = (pv, idx, TkOut.ok toks) :=
  tokenizeWords_all_known c gen fuel (splitWhitespace input) pv idx h

/-- Witness for C10: a vault knowing only `x`, input `"x x"`, a failing
flush and zero mint fuel — the call still succeeds and changes nothing. -/
theorem tokenize_all_known_readonly_witness :
    ∃ toks, tokenize false genT 0 pvX 0 "x x" = (pvX, 0, TkOut.ok toks) :=
  tokenize_all_known_readonly false genT 0 pvX 0 "x x" (by decide)
